/-
Verification of the HAFiscal empirical pipeline (SCF 2004 liquid-wealth
construction and distribution statistics).

The development shallowly embeds the household-level computations of
Code/Empirical/make_liquid_wealth.py, Code/Empirical/adjust_scf_inflation.py
and Code/Empirical/compare_scf_datasets.py over exact rationals:

* data frames become lists of records;
* pandas cumulative sums become an explicit running-sum function;
* pandas sort_values becomes insertion sort with the same keys;
* numpy searchsorted becomes List.findIdx over the cumulative-weight list.

All monetary and weight arithmetic is carried out in the rationals.
-/
import Mathlib

namespace HAFiscal

/-- Running cumulative sum starting from an accumulator, mirroring the
semantics of pandas Series.cumsum applied after adding acc. -/
def cumsumFrom (acc : ℚ) : List ℚ → List ℚ
  | [] => []
  | w :: ws => (acc + w) :: cumsumFrom (acc + w) ws

/-- Cumulative-sum of a list of rationals, as pandas Series.cumsum. -/
def cumsum (ws : List ℚ) : List ℚ :=
  cumsumFrom 0 ws

/-- One raw SCF record: one row per household per imputation implicate,
with the columns loaded by make_liquid_wealth.load_data. -/
structure RawRec where
  yy1 : Nat
  y1 : Nat
  wgt : ℚ
  age : ℚ
  edcl : Nat
  norminc : ℚ
  liq : ℚ
  cds : ℚ
  nmmf : ℚ
  stocks : ℚ
  bond : ℚ
  ccbal : ℚ
  install : ℚ
  veh_inst : ℚ
  deriving DecidableEq, Repr

/-- One row of the auxiliary ccbal_answer table, keyed by implicate id y1
with the survey answer flag x432. -/
structure AuxRec where
  y1 : Nat
  x432 : Int
  deriving DecidableEq, Repr

/-- Lookup of the auxiliary row matching a given implicate id, the record
semantics of a pandas left merge on a unique key. -/
def lookupAux (aux : List AuxRec) (k : Nat) : Option AuxRec :=
  aux.find? (fun a => a.y1 == k)

/-- Per-record effect of merging with ccbal_answer and forcing ccbal to 0
where x432 == 1 (make_liquid_wealth.merge_and_filter, lines 66-68). -/
def applyCcbalAnswer (aux : List AuxRec) (r : RawRec) : RawRec :=
  match lookupAux aux r.y1 with
  | some a => if a.x432 = 1 then { r with ccbal := 0 } else r
  | none => r

/-- Left-merge of the raw records with the ccbal_answer table followed by
the ccbal correction; every raw row produces exactly one output row. -/
def mergeCcbal (aux : List AuxRec) (df : List RawRec) : List RawRec :=
  df.map (applyCcbalAnswer aux)

/-- Liquid wealth including installment debt
(tempLiqWealthInst, make_liquid_wealth.py lines 85-88). -/
def tempLiqWealthInst (r : RawRec) : ℚ :=
  r.liq * 1.05 + r.cds + r.nmmf + r.stocks + r.bond - r.ccbal
    - (r.install - r.veh_inst)

/-- Kaplan liquid-wealth measure
(tempLiqWealthKaplan, make_liquid_wealth.py lines 89-92). -/
def tempLiqWealthKaplan (r : RawRec) : ℚ :=
  r.liq * 1.05 + r.cds + r.nmmf + r.stocks + r.bond - r.ccbal

/-- Liquid-wealth measure selected by the include_installment switch
(make_liquid_wealth.py lines 134-138): the alternate measure when the
switch is on, the Kaplan measure otherwise (the default). -/
def chosenLiqWealth (include_installment : Bool) (r : RawRec) : ℚ :=
  if include_installment then tempLiqWealthInst r else tempLiqWealthKaplan r

/-- Rows of a data frame belonging to one household identifier. -/
def householdRows (df : List RawRec) (h : Nat) : List RawRec :=
  df.filter (fun r => r.yy1 == h)

/-- Representative household weight: the mean of the per-implicate weights
within the household, scaled by 5 (make_liquid_wealth.py line 118). -/
def representativeWeight (df : List RawRec) (r : RawRec) : ℚ :=
  (((householdRows df r.yy1).map (·.wgt)).sum
      / ((householdRows df r.yy1).length : ℚ)) * 5

/-- Implicate collapse: keep only the rows whose implicate id satisfies
y1 mod 5 == 1 (make_liquid_wealth.py line 123). -/
def collapseImplicates (df : List RawRec) : List RawRec :=
  df.filter (fun r => r.y1 % 5 == 1)

/-- Convention of the SCF implicate indexing: each household id h present
in the frame has exactly the five implicate rows y1 = 10*h+1, ..., 10*h+5,
in some order. -/
def FiveImplicates (df : List RawRec) : Prop :=
  ∀ h ∈ df.map (·.yy1),
    ((householdRows df h).map (·.y1)).Perm
      [10 * h + 1, 10 * h + 2, 10 * h + 3, 10 * h + 4, 10 * h + 5]

/-- One collapsed household observation, as used by the trimming step and
by calculate_statistics: household id, permanent income, representative
weight, the selected liquid-wealth value, and the education tier. -/
structure HH where
  yy1 : Nat
  permInc : ℚ
  weight : ℚ
  liqWealth : ℚ
  myEd : Nat
  deriving DecidableEq, Repr

/-- Sorting of a household panel by permanent income ascending
(df.sort_values of make_liquid_wealth.py line 129). -/
def sortByPermInc (df : List HH) : List HH :=
  List.insertionSort (fun a b => a.permInc ≤ b.permInc) df

/-- Total raw weight of a panel. -/
def totalWeight (df : List HH) : ℚ :=
  (df.map (·.weight)).sum

/-- Normalized weight of one household: raw weight divided by the total
weight of the panel (make_liquid_wealth.py lines 127-128 and 144-145). -/
def normw (df : List HH) (h : HH) : ℚ :=
  h.weight / totalWeight df

/-- Cumulative normalized weight along the income-sorted panel, the sumW
column of make_liquid_wealth.py line 130. -/
def sumWseq (df : List HH) : List ℚ :=
  cumsum ((sortByPermInc df).map (normw df))

/-- Lower-tail income trimming (make_liquid_wealth.py lines 126-131): sort
by permanent income, compute cumulative normalized weight, and keep the
rows whose cumulative weight is at least 0.05. -/
def trimLowIncome (df : List HH) : List HH :=
  ((((sortByPermInc df).zip (sumWseq df)).filter
      (fun p => (0.05 : ℚ) ≤ p.2)).map Prod.fst)

/-- Sum of normalized weight within one education tier, the edfrac column
of make_liquid_wealth.py line 148. -/
def edfrac (df : List HH) (e : Nat) : ℚ :=
  ((df.filter (fun h => h.myEd == e)).map (normw df)).sum

/-- Education-group weight of one household: normalized weight divided by
the tier total of normalized weight (make_liquid_wealth.py line 149). -/
def edWeight (df : List HH) (h : HH) : ℚ :=
  normw df h / edfrac df h.myEd

/-- Sorting of a household panel by liquid wealth ascending with household
id as tie-break (df.sort_values of make_liquid_wealth.py lines 160, 274). -/
def sortByWealthId (df : List HH) : List HH :=
  List.insertionSort
    (fun a b =>
      a.liqWealth < b.liqWealth ∨ (a.liqWealth = b.liqWealth ∧ a.yy1 ≤ b.yy1))
    df

/-- Cumulative population share in percent along the wealth-sorted panel,
the sumNormW column of make_liquid_wealth.py line 163. -/
def sumNormWseq (df : List HH) : List ℚ :=
  (cumsum ((sortByWealthId df).map (normw df))).map (· * 100)

/-- Weighted liquid wealth of one household, the weightedLW_all column of
make_liquid_wealth.py line 275. -/
def weightedLW (df : List HH) (h : HH) : ℚ :=
  normw df h * h.liqWealth

/-- Total weighted liquid wealth of the panel
(tot_weighted_lw, make_liquid_wealth.py line 276). -/
def totWeightedLW (df : List HH) : ℚ :=
  ((sortByWealthId df).map (weightedLW df)).sum

/-- Cumulative wealth share in percent along the wealth-sorted panel, the
sumLWall column of make_liquid_wealth.py line 277. -/
def sumLWallSeq (df : List HH) : List ℚ :=
  (cumsum ((sortByWealthId df).map
      (fun h => weightedLW df h / totWeightedLW df))).map (· * 100)

/-- Lorenz coordinates of the panel: cumulative population share paired
with cumulative wealth share, in wealth-ascending order. -/
def lorenzAll (df : List HH) : List (ℚ × ℚ) :=
  (sumNormWseq df).zip (sumLWallSeq df)

/-- Cumulative wealth shares of the households whose cumulative population
share lies strictly below the threshold pct. -/
def wealthSharesBelow (df : List HH) (pct : ℚ) : List ℚ :=
  ((lorenzAll df).filter (fun p => p.1 < pct)).map Prod.snd

/-- Lorenz bucket readout (make_liquid_wealth.py line 282): the maximum
cumulative wealth share over the households whose cumulative population
share is strictly below the threshold, none when no household qualifies. -/
def lorenzReadout (df : List HH) (pct : ℚ) : WithBot ℚ :=
  (wealthSharesBelow df pct).maximum

/-- Weighted median exactly as computed in make_liquid_wealth.py lines
250-252: cumulative weights, numpy searchsorted of half the total weight
(side left, the first index whose cumulative weight reaches the target),
and the value at that index, defaulting to the last value when the index
runs off the end of the list. -/
def weightedMedian (values weights : List ℚ) : ℚ :=
  let cum := cumsum weights
  let half := cum.getLastD 0 / 2
  let idx := cum.findIdx (fun c => half ≤ c)
  values.getD idx (values.getLastD 0)

/-- Ratio of liquid wealth to permanent income of one household, the
indLWoPI column of make_liquid_wealth.py line 241. -/
def indLWoPI (h : HH) : ℚ :=
  h.liqWealth / h.permInc

/-- Households of one education tier sorted by the wealth-to-income
measure ascending (make_liquid_wealth.py lines 244-245). -/
def tierSortedByLWoPI (df : List HH) (e : Nat) : List HH :=
  List.insertionSort (fun a b => indLWoPI a ≤ indLWoPI b)
    (df.filter (fun h => h.myEd == e))

/-- Weighted median of the wealth-to-income measure within one education
tier (make_liquid_wealth.py lines 243-253). -/
def tierMedianLWoPI (df : List HH) (e : Nat) : ℚ :=
  weightedMedian ((tierSortedByLWoPI df e).map indLWoPI)
    ((tierSortedByLWoPI df e).map (edWeight df))

/-- One named column of a tabular dataset, for the vintage reconciler. -/
structure Column where
  name : String
  values : List ℚ
  deriving DecidableEq, Repr

/-- Empirically determined vintage factor of adjust_scf_inflation.py
line 26. -/
def INFLATION_FACTOR : ℚ := 1.1587

/-- Dollar-denominated variables of adjust_scf_inflation.py lines 30-66. -/
def DOLLAR_VARIABLES : List String :=
  ["income", "wageinc", "bussefarminc", "intdivinc", "kginc", "ssretinc",
   "transfothinc", "norminc", "networth", "asset", "fin", "nfin", "debt",
   "mrthel", "resdbt", "othloc", "ccbal", "install", "odebt", "liq",
   "cds", "nmmf", "stocks", "bond", "savbnd", "cashli", "othma", "othfin",
   "vehic", "houses", "oresre", "nnresre", "bus", "othnfin", "veh_inst"]

/-- Maximum absolute value of a column, the df[var].abs().max() test of
adjust_scf_inflation.py line 98; the maximum of an empty column is 0 so
that an empty column is never rescaled. -/
def maxAbs (vs : List ℚ) : ℚ :=
  (vs.map (fun v => |v|)).foldr max 0

/-- Per-column effect of adjust_scf_inflation.adjust_inflation lines
94-100: a listed column with a non-zero maximum absolute value is divided
by the vintage factor, every other column is left unchanged. -/
def adjustColumn (c : Column) : Column :=
  if c.name ∈ DOLLAR_VARIABLES ∧ 0 < maxAbs c.values then
    { c with values := c.values.map (fun v => v / INFLATION_FACTOR) }
  else c

/-- Vintage rescaling of a whole table, column by column. -/
def adjust_inflation (table : List Column) : List Column :=
  table.map adjustColumn

/-- Percent difference of one statistic in the dataset-comparison report
(compare_scf_datasets.py lines 144 and 168): computed by division only
when the git-versioned reference value is non-zero, reported as 0
otherwise. -/
def pctDiff (g l : ℚ) : ℚ :=
  if g ≠ 0 then |l - g| / |g| * 100 else 0

/-- Running maximum of the percent differences over a list of
(reference, candidate) statistic pairs, starting from 0
(compare_scf_datasets.py lines 140-145 and 164-169). -/
def maxDiff (pairs : List (ℚ × ℚ)) : ℚ :=
  pairs.foldl (fun m p => max m (pctDiff p.1 p.2)) 0

/-- Scenario panel of claim C1: 100 households with uniform weight 1 and
pairwise distinct permanent incomes 1, 2, ..., 100, listed in ascending
income order. -/
def uniform100 : List HH :=
  (List.range 100).map
    (fun i => { yy1 := i, permInc := (i : ℚ) + 1, weight := 1,
                liqWealth := 0, myEd := 1 })

/-- Scenario panel of claim C2: four households in one education tier with
weights [1,1,1,1] and liquid wealth [0, 10, 20, 70]. -/
def lorenzScenario4 : List HH :=
  [{ yy1 := 0, permInc := 1, weight := 1, liqWealth := 0, myEd := 1 },
   { yy1 := 1, permInc := 1, weight := 1, liqWealth := 10, myEd := 1 },
   { yy1 := 2, permInc := 1, weight := 1, liqWealth := 20, myEd := 1 },
   { yy1 := 3, permInc := 1, weight := 1, liqWealth := 70, myEd := 1 }]

/-- Degenerate panel for claim C6: one household with non-negative (zero)
liquid wealth, on which the cumulative wealth-share sequence cannot reach
100. -/
def zeroWealthPanel : List HH :=
  [{ yy1 := 0, permInc := 1, weight := 1, liqWealth := 0, myEd := 1 }]

/-- Concrete two-household raw frame for the witnesses of claims C7: each
household has its five implicate rows with y1 = 10*h + i. -/
def rawTwoHH : List RawRec :=
  ((List.range 5).map
    (fun i => { yy1 := 7, y1 := 71 + i, wgt := (i : ℚ) + 1, age := 40,
                edcl := 2, norminc := 100, liq := 0, cds := 0, nmmf := 0,
                stocks := 0, bond := 0, ccbal := 0, install := 0,
                veh_inst := 0 : RawRec })) ++
  ((List.range 5).map
    (fun i => { yy1 := 9, y1 := 91 + i, wgt := 2, age := 30,
                edcl := 4, norminc := 200, liq := 0, cds := 0, nmmf := 0,
                stocks := 0, bond := 0, ccbal := 0, install := 0,
                veh_inst := 0 : RawRec }))

/-- Auxiliary table with one row whose flag reports no revolving balance,
for the witness of the merge-correction claim. -/
def auxNoBalance : List AuxRec :=
  [{ y1 := 11, x432 := 1 }]

/-- Raw record with a reported credit-card balance of 500, matched by the
auxiliary row of auxNoBalance. -/
def rawCc500 : RawRec :=
  { yy1 := 1, y1 := 11, wgt := 1, age := 40, edcl := 2, norminc := 100,
    liq := 0, cds := 0, nmmf := 0, stocks := 0, bond := 0, ccbal := 500,
    install := 0, veh_inst := 0 }

/-- Listed monetary column with a non-zero entry, for the rescaling
witness. -/
def colIncome : Column :=
  { name := "income", values := [100, 0, -3] }

/-- Unlisted column, for the rescaling witness. -/
def colAge : Column :=
  { name := "age", values := [40, 25] }

/-- Listed monetary column whose entries are all zero, for the rescaling
witness. -/
def colZero : Column :=
  { name := "ccbal", values := [0, 0] }

section Helpers

/-- Length of a running cumulative sum. -/
theorem cumsumFrom_length (ws : List ℚ) : ∀ acc, (cumsumFrom acc ws).length = ws.length := by
  induction ws with
  | nil => intro acc; rfl
  | cons w ws ih => intro acc; simp [cumsumFrom, ih]

/-- Length of a cumulative sum. -/
theorem cumsum_length (ws : List ℚ) : (cumsum ws).length = ws.length :=
  cumsumFrom_length ws 0

/-- Entries of a running cumulative sum of non-negative terms dominate the
starting accumulator. -/
theorem le_of_mem_cumsumFrom {ws : List ℚ} (hw : ∀ w ∈ ws, 0 ≤ w) :
    ∀ acc, ∀ c ∈ cumsumFrom acc ws, acc ≤ c := by
  induction ws with
  | nil => intro acc c hc; simp [cumsumFrom] at hc
  | cons w ws ih =>
    intro acc c hc
    have hw0 : 0 ≤ w := hw w (List.mem_cons_self w ws)
    have hws : ∀ x ∈ ws, 0 ≤ x := fun x hx => hw x (List.mem_cons_of_mem w hx)
    rcases List.mem_cons.mp hc with h | h
    · subst h; linarith
    · have := ih hws (acc + w) c h
      linarith

/-- Running cumulative sums of non-negative terms are non-decreasing. -/
theorem cumsumFrom_pairwise {ws : List ℚ} (hw : ∀ w ∈ ws, 0 ≤ w) :
    ∀ acc, (cumsumFrom acc ws).Pairwise (· ≤ ·) := by
  induction ws with
  | nil => intro acc; simp [cumsumFrom]
  | cons w ws ih =>
    intro acc
    have hw0 : 0 ≤ w := hw w (List.mem_cons_self w ws)
    have hws : ∀ x ∈ ws, 0 ≤ x := fun x hx => hw x (List.mem_cons_of_mem w hx)
    refine List.pairwise_cons.mpr ⟨fun c hc => le_of_mem_cumsumFrom hws (acc + w) c hc, ih hws (acc + w)⟩

/-- Last entry of a running cumulative sum of a non-empty list. -/
theorem cumsumFrom_getLastD {ws : List ℚ} (hne : ws ≠ []) :
    ∀ acc d, (cumsumFrom acc ws).getLastD d = acc + ws.sum := by
  induction ws with
  | nil => exact absurd rfl hne
  | cons w ws ih =>
    intro acc d
    cases ws with
    | nil => simp [cumsumFrom]
    | cons x xs =>
      have h2 : cumsumFrom acc (w :: x :: xs) = (acc + w) :: cumsumFrom (acc + w) (x :: xs) := rfl
      rw [h2, List.getLastD_cons, ih (List.cons_ne_nil x xs) (acc + w) (acc + w)]
      simp [List.sum_cons]
      ring

/-- Last entry of a cumulative sum of a non-empty list is the total. -/
theorem cumsum_getLastD {ws : List ℚ} (hne : ws ≠ []) (d : ℚ) :
    (cumsum ws).getLastD d = ws.sum := by
  rw [cumsum, cumsumFrom_getLastD hne 0 d, zero_add]

/-- Sum of a list mapped through division by a constant. -/
theorem sum_map_div (l : List ℚ) (t : ℚ) :
    (l.map (fun x => x / t)).sum = l.sum / t := by
  induction l with
  | nil => simp
  | cons x xs ih => simp [ih, add_div]

/-- Filtering a zipped list on a monotone threshold column keeps exactly a
suffix: the elements whose running value is below the threshold are
dropped and every other element is retained. -/
theorem filter_zip_map_fst_eq_drop {α : Type} (t : ℚ) :
    ∀ (xs : List α) (cs : List ℚ), xs.length = cs.length →
      cs.Pairwise (· ≤ ·) →
      ((xs.zip cs).filter (fun p => decide (t ≤ p.2))).map Prod.fst =
        xs.drop (cs.countP (fun c => decide (c < t))) := by
  intro xs
  induction xs with
  | nil => intro cs _ _; simp
  | cons x xs ih =>
    intro cs hlen hmono
    cases cs with
    | nil => simp at hlen
    | cons c cs =>
      have hlen' : xs.length = cs.length := by simpa using hlen
      have hmono' : cs.Pairwise (· ≤ ·) := (List.pairwise_cons.mp hmono).2
      have hhead : ∀ c' ∈ cs, c ≤ c' := (List.pairwise_cons.mp hmono).1
      by_cases hc : t ≤ c
      · have hall : ∀ p ∈ (x, c) :: xs.zip cs, decide (t ≤ p.2) = true := by
          intro p hp
          rcases List.mem_cons.mp hp with h | h
          · subst h; simpa using hc
          · have := (List.of_mem_zip h).2
            simp only [decide_eq_true_eq]
            exact le_trans hc (hhead _ this)
        have hfil : ((x :: xs).zip (c :: cs)).filter (fun p => decide (t ≤ p.2)) =
            (x, c) :: xs.zip cs := List.filter_eq_self.mpr hall
        have hcount : (c :: cs).countP (fun c' => decide (c' < t)) = 0 := by
          refine List.countP_eq_zero.mpr ?_
          intro a ha
          rcases List.mem_cons.mp ha with h | h
          · subst h; simpa using hc
          · simpa using le_trans hc (hhead _ h)
        rw [List.zip_cons_cons] at hfil ⊢
        rw [hfil, hcount, List.drop_zero, List.map_cons]
        congr 1
        exact List.map_fst_zip xs cs (le_of_eq hlen')
      · have hcount : (c :: cs).countP (fun c' => decide (c' < t)) =
            cs.countP (fun c' => decide (c' < t)) + 1 := by
          rw [List.countP_cons]
          simp [not_le.mp hc]
        rw [List.zip_cons_cons, List.filter_cons]
        simp only [hc, decide_eq_true_eq, if_neg hc]
        rw [hcount, List.drop_succ_cons]
        exact ih cs hlen' hmono'

end Helpers

section Claims

set_option maxRecDepth 100000

attribute [local semireducible] Rat.add Rat.mul Rat.inv Rat.sub Rat.ofScientific

/-- C1, counterexample: on the very scenario of the claim, with of 100 households with
uniform weights and pairwise distinct permanent incomes, the trimming step
removes exactly 4 households, not 5: the 5th-lowest household has
cumulative normalized weight exactly 0.05, which meets the retention test
of make_liquid_wealth.py line 131. -/
theorem trim_uniform100_removes_four :
    uniform100.length = 100 ∧
    (trimLowIncome uniform100).length = 100 - 4 ∧
    (trimLowIncome uniform100).length ≠ 100 - 5 := by
  decide

/-- C1 (amended): after sorting households by permanent income ascending
and computing the running cumulative sum of normalized weight, every
household whose cumulative normalized weight is strictly below 0.05 is
dropped and every other household is retained (for non-negative weights
the dropped rows are exactly the lowest-income prefix counted by the
cumulative-weight test); in particular, for an input of 100 households
with uniform weights and distinct incomes, exactly the 4 lowest-income
households are removed, the 5th being retained at cumulative weight
exactly 0.05. -/
theorem trim_drops_cumweight_below_five_percent :
    (∀ df : List HH, (∀ h ∈ df, 0 ≤ h.weight) →
      trimLowIncome df =
        (sortByPermInc df).drop
          ((sumWseq df).countP (fun c => decide (c < (0.05 : ℚ))))) ∧
    trimLowIncome uniform100 = uniform100.drop 4 := by
  constructor
  · intro df hw
    have hlen : (sortByPermInc df).length = (sumWseq df).length := by
      simp [sumWseq, cumsum, cumsumFrom_length]
    have hnn : ∀ w ∈ (sortByPermInc df).map (normw df), 0 ≤ w := by
      intro w hwmem
      rcases List.mem_map.mp hwmem with ⟨h, hh, rfl⟩
      have hmem : h ∈ df := ((List.perm_insertionSort _ df).mem_iff).mp hh
      have hT : 0 ≤ totalWeight df := by
        refine List.sum_nonneg ?_
        intro x hx
        rcases List.mem_map.mp hx with ⟨h2, hh2, rfl⟩
        exact hw h2 hh2
      exact div_nonneg (hw h hmem) hT
    have hpw : (sumWseq df).Pairwise (· ≤ ·) := cumsumFrom_pairwise hnn 0
    exact filter_zip_map_fst_eq_drop 0.05 (sortByPermInc df) (sumWseq df) hlen hpw
  · decide

/-- C1, witness: the amended trimming characterization evaluated on the
concrete four-household panel. -/
theorem trim_drops_cumweight_below_five_percent_witness :
    trimLowIncome lorenzScenario4 =
      (sortByPermInc lorenzScenario4).drop
        ((sumWseq lorenzScenario4).countP (fun c => decide (c < (0.05 : ℚ)))) :=
  trim_drops_cumweight_below_five_percent.1 lorenzScenario4 (by decide)

/-- C2, counterexample: on the four-household scenario of the claim, the
strictly-below step-function rule of make_liquid_wealth.py line 282
applied at the 75 percent population mark reads 10 percent of wealth, not
the claimed 30 percent (the third household, at cumulative population
share exactly 75, is excluded by the strict inequality). -/
theorem lorenz_readout_at_75_reads_ten :
    lorenzReadout lorenzScenario4 75 = ((10 : ℚ) : WithBot ℚ) ∧
    ((10 : ℚ) : WithBot ℚ) ≠ ((30 : ℚ) : WithBot ℚ) := by
  decide

/-- C2 (amended): for each population threshold, the reported wealth share
is the maximum cumulative wealth share over households whose cumulative
population share is strictly below the threshold (a step-function lookup,
no interpolation); on the panel of 4 households with weights [1,1,1,1]
and wealth [0, 10, 20, 70] in one education tier, the readout at the 80
percent threshold equals 30 percent (while the readout at the 75 percent
mark equals 10 percent under the strict rule). -/
theorem lorenz_readout_max_below_threshold :
    (∀ (df : List HH) (t y : ℚ), lorenzReadout df t = (y : WithBot ℚ) →
      y ∈ wealthSharesBelow df t ∧ ∀ z ∈ wealthSharesBelow df t, z ≤ y) ∧
    lorenzReadout lorenzScenario4 80 = ((30 : ℚ) : WithBot ℚ) := by
  constructor
  · intro df t y hy
    exact ⟨List.maximum_mem hy, fun z hz => List.le_maximum_of_mem hz hy⟩
  · decide

/-- C2, witness: the readout characterization evaluated at the concrete
four-household panel and the 80 percent threshold. -/
theorem lorenz_readout_max_below_threshold_witness :
    (30 : ℚ) ∈ wealthSharesBelow lorenzScenario4 80 :=
  (lorenz_readout_max_below_threshold.1 lorenzScenario4 80 30 (by decide)).1

/-- Crossing characterization of the weighted median: when index i is the
first position whose cumulative weight reaches half the total, the median
is the i-th value. -/
theorem weightedMedian_eq_of_crossing (v w : List ℚ) (i : Nat)
    (hlen : w.length = v.length) (hi : i < v.length)
    (hge : (cumsum w).getLastD 0 / 2 ≤ (cumsum w).getD i 0)
    (hlt : ∀ j, j < i → (cumsum w).getD j 0 < (cumsum w).getLastD 0 / 2) :
    weightedMedian v w = v.getD i 0 := by
  have hci : i < (cumsum w).length := by
    rw [cumsum_length]; omega
  have hgi : (cumsum w).getD i 0 = (cumsum w).get ⟨i, hci⟩ := by
    rw [List.getD_eq_getElem?_getD, List.getElem?_eq_getElem hci]; rfl
  have hfind :
      (cumsum w).findIdx (fun c => decide ((cumsum w).getLastD 0 / 2 ≤ c)) = i := by
    rw [List.findIdx_eq hci]
    constructor
    · simp only [decide_eq_true_eq]
      rw [hgi] at hge
      exact hge
    · intro j hj
      have hcj : j < (cumsum w).length := lt_trans hj hci
      have hgj : (cumsum w).getD j 0 = (cumsum w).get ⟨j, hcj⟩ := by
        rw [List.getD_eq_getElem?_getD, List.getElem?_eq_getElem hcj]; rfl
      have := hlt j hj
      rw [hgj] at this
      simpa using not_le.mpr this
  show (v.getD ((cumsum w).findIdx fun c => decide ((cumsum w).getLastD 0 / 2 ≤ c))
    (v.getLastD 0)) = v.getD i 0
  rw [hfind, List.getD_eq_getElem?_getD, List.getD_eq_getElem?_getD,
    List.getElem?_eq_getElem hi]
  rfl

/-- Fallback characterization of the weighted median: when no cumulative
weight reaches half the total, the last value is returned. -/
theorem weightedMedian_eq_getLast_of_never (v w : List ℚ)
    (hlen : w.length = v.length)
    (hno : ∀ c ∈ cumsum w, c < (cumsum w).getLastD 0 / 2) :
    weightedMedian v w = v.getLastD 0 := by
  have hfind :
      (cumsum w).findIdx (fun c => decide ((cumsum w).getLastD 0 / 2 ≤ c)) =
        (cumsum w).length := by
    refine List.findIdx_eq_length_of_false ?_
    intro c hc
    simpa using not_le.mpr (hno c hc)
  show (v.getD ((cumsum w).findIdx fun c => decide ((cumsum w).getLastD 0 / 2 ≤ c))
    (v.getLastD 0)) = v.getLastD 0
  rw [hfind, cumsum_length, hlen]
  rw [List.getD_eq_getElem?_getD, List.getElem?_eq_none (le_refl v.length)]
  rfl

/-- Membership of the weighted median among the observed values. -/
theorem weightedMedian_mem (v w : List ℚ) (hne : v ≠ []) :
    weightedMedian v w ∈ v := by
  show (v.getD ((cumsum w).findIdx fun c => decide ((cumsum w).getLastD 0 / 2 ≤ c))
    (v.getLastD 0)) ∈ v
  set idx := (cumsum w).findIdx fun c => decide ((cumsum w).getLastD 0 / 2 ≤ c) with hidx
  by_cases h : idx < v.length
  · rw [List.getD_eq_getElem?_getD, List.getElem?_eq_getElem h]
    exact List.getElem_mem h
  · rw [List.getD_eq_getElem?_getD, List.getElem?_eq_none (le_of_not_lt h)]
    show v.getLastD 0 ∈ v
    rw [List.getLastD_eq_getLast?, List.getLast?_eq_getLast v hne]
    exact List.getLast_mem hne

/-- C3: the per-tier weighted median of the wealth-to-income measure
returns the value at the smallest index whose cumulative weight reaches
half the total weight (the first household in sort order at a tied
crossing point), returns the last value when the cumulative weight never
reaches half, and consequently, for every non-empty tier, lies within
[min, max] of the observed values of the measure in that tier. -/
theorem weighted_median_crossing_and_bounds :
    (∀ (v w : List ℚ) (i : Nat), w.length = v.length → i < v.length →
      (cumsum w).getLastD 0 / 2 ≤ (cumsum w).getD i 0 →
      (∀ j, j < i → (cumsum w).getD j 0 < (cumsum w).getLastD 0 / 2) →
      weightedMedian v w = v.getD i 0) ∧
    (∀ (v w : List ℚ), w.length = v.length →
      (∀ c ∈ cumsum w, c < (cumsum w).getLastD 0 / 2) →
      weightedMedian v w = v.getLastD 0) ∧
    (∀ (df : List HH) (e : Nat), tierSortedByLWoPI df e ≠ [] →
      tierMedianLWoPI df e ∈ (df.filter (fun h => h.myEd == e)).map indLWoPI ∧
      ((df.filter (fun h => h.myEd == e)).map indLWoPI).minimum ≤
        (tierMedianLWoPI df e : WithTop ℚ) ∧
      ((tierMedianLWoPI df e : WithBot ℚ)) ≤
        ((df.filter (fun h => h.myEd == e)).map indLWoPI).maximum) := by
  refine ⟨weightedMedian_eq_of_crossing, weightedMedian_eq_getLast_of_never, ?_⟩
  intro df e hne
  have hvne : (tierSortedByLWoPI df e).map indLWoPI ≠ [] := by
    simpa using hne
  have hmem0 : tierMedianLWoPI df e ∈ (tierSortedByLWoPI df e).map indLWoPI :=
    weightedMedian_mem _ _ hvne
  have hperm : ((tierSortedByLWoPI df e).map indLWoPI).Perm
      ((df.filter (fun h => h.myEd == e)).map indLWoPI) :=
    (List.perm_insertionSort _ _).map indLWoPI
  have hmem : tierMedianLWoPI df e ∈ (df.filter (fun h => h.myEd == e)).map indLWoPI :=
    hperm.mem_iff.mp hmem0
  exact ⟨hmem, List.minimum_le_of_mem' hmem, List.le_maximum_of_mem' hmem⟩

/-- C3, witness: the crossing rule at a concrete interior index, the
fallback rule on a concrete list whose cumulative weight stays below half
the total, and the bounds on a concrete tier. -/
theorem weighted_median_crossing_and_bounds_witness :
    weightedMedian [1, 2, 3] [1, 1, 1] = ([1, 2, 3] : List ℚ).getD 1 0 ∧
    weightedMedian [7] [-4] = ([7] : List ℚ).getLastD 0 ∧
    tierMedianLWoPI lorenzScenario4 1 ∈
      (lorenzScenario4.filter (fun h => h.myEd == 1)).map indLWoPI := by
  refine ⟨?_, ?_, ?_⟩
  · exact weighted_median_crossing_and_bounds.1 [1, 2, 3] [1, 1, 1] 1
      (by decide) (by decide) (by decide)
      (fun j hj => by
        have hj0 : j = 0 := by omega
        subst hj0
        decide)
  · exact weighted_median_crossing_and_bounds.2.1 [7] [-4] (by decide) (by decide)
  · exact (weighted_median_crossing_and_bounds.2.2 lorenzScenario4 1 (by decide)).1

/-- C4: the operative liquid-wealth measure defaults to
liquid*1.05 + CDs + money market funds + stocks + bonds - credit-card
balance (the Kaplan measure); with the boolean switch on, the measure
additionally subtracts (installment debt - vehicle installment debt), and
no other term differs between the two definitions. -/
theorem liquid_wealth_definitions :
    ∀ r : RawRec,
      chosenLiqWealth false r =
        r.liq * 1.05 + r.cds + r.nmmf + r.stocks + r.bond - r.ccbal ∧
      chosenLiqWealth false r = tempLiqWealthKaplan r ∧
      chosenLiqWealth true r =
        chosenLiqWealth false r - (r.install - r.veh_inst) := by
  intro r
  refine ⟨rfl, rfl, ?_⟩
  show tempLiqWealthInst r = tempLiqWealthKaplan r - (r.install - r.veh_inst)
  simp only [tempLiqWealthInst, tempLiqWealthKaplan]

/-- C5: after all drops, the recomputed normalized weights of a non-empty
surviving panel with positive sampling weights sum to 1, and within every
non-empty education tier the education-group weights sum to 1. -/
theorem weights_renormalize_to_one :
    ∀ df : List HH, df ≠ [] → (∀ h ∈ df, 0 < h.weight) →
      (df.map (normw df)).sum = 1 ∧
      ∀ e : Nat, df.filter (fun h => h.myEd == e) ≠ [] →
        ((df.filter (fun h => h.myEd == e)).map (edWeight df)).sum = 1 := by
  intro df hne hw
  have hmapne : df.map (fun h : HH => h.weight) ≠ [] := by
    simpa using hne
  have hT : 0 < totalWeight df := by
    refine List.sum_pos _ ?_ hmapne
    intro x hx
    rcases List.mem_map.mp hx with ⟨h, hh, rfl⟩
    exact hw h hh
  constructor
  · have h1 : df.map (normw df) =
        (df.map (fun h : HH => h.weight)).map (fun x => x / totalWeight df) := by
      rw [List.map_map]
      rfl
    rw [h1, sum_map_div]
    exact div_self (ne_of_gt hT)
  · intro e hte
    have htmapne : (df.filter (fun h => h.myEd == e)).map (normw df) ≠ [] := by
      simpa using hte
    have hFpos : 0 < edfrac df e := by
      refine List.sum_pos _ ?_ htmapne
      intro x hx
      rcases List.mem_map.mp hx with ⟨h, hh, rfl⟩
      exact div_pos (hw h (List.mem_of_mem_filter hh)) hT
    have h2 : (df.filter (fun h => h.myEd == e)).map (edWeight df) =
        ((df.filter (fun h => h.myEd == e)).map (normw df)).map
          (fun x => x / edfrac df e) := by
      rw [List.map_map]
      refine List.map_congr_left ?_
      intro h hh
      have hEd : h.myEd = e := by
        have := (List.mem_filter.mp hh).2
        simpa using this
      show edWeight df h = normw df h / edfrac df e
      rw [edWeight, hEd]
    rw [h2, sum_map_div]
    exact div_self (ne_of_gt hFpos)

/-- C5, witness: the weight re-normalization invariant evaluated on the
concrete four-household panel and its single education tier. -/
theorem weights_renormalize_to_one_witness :
    (lorenzScenario4.map (normw lorenzScenario4)).sum = 1 ∧
    ((lorenzScenario4.filter (fun h => h.myEd == 1)).map
      (edWeight lorenzScenario4)).sum = 1 :=
  ⟨(weights_renormalize_to_one lorenzScenario4 (by decide) (by decide)).1,
   (weights_renormalize_to_one lorenzScenario4 (by decide) (by decide)).2 1 (by decide)⟩

/-- Last-element-with-default of a mapped non-empty list. -/
theorem getLastD_map_of_ne_nil (f : ℚ → ℚ) (l : List ℚ) (hne : l ≠ []) (d d' : ℚ) :
    (l.map f).getLastD d = f (l.getLastD d') := by
  have h := List.getLast?_eq_getLast l hne
  simp [List.getLastD_eq_getLast?, List.getLast?_map, h]

/-- C6, counterexample: a panel of one household with non-negative (zero)
liquid wealth satisfies the hypothesis of the claim, yet its cumulative
wealth-share sequence ends at 0, not 100: the total weighted wealth is 0,
so the wealth-share column never accumulates to 100 (the source divides 0
by 0 there, producing NaN rather than 100). -/
theorem lorenz_zero_wealth_sequence_stalls :
    zeroWealthPanel.all (fun h => decide ((0 : ℚ) ≤ h.liqWealth)) = true ∧
    (sumLWallSeq zeroWealthPanel).getLastD 0 = 0 ∧
    ((0 : ℚ) ≠ 100) := by
  decide

/-- C6 (amended): for every non-empty panel with positive sampling weights
in which all retained households have non-negative liquid wealth and the
total weighted liquid wealth is positive, both the cumulative
population-share sequence and the cumulative wealth-share sequence, taken
in the wealth-ascending sort order, are non-decreasing, and each
final element of each sequence equals 100. -/
theorem lorenz_sequences_monotone_end_at_100 :
    ∀ df : List HH, df ≠ [] → (∀ h ∈ df, 0 < h.weight) →
      (∀ h ∈ df, 0 ≤ h.liqWealth) → 0 < totWeightedLW df →
      (sumNormWseq df).Pairwise (· ≤ ·) ∧
      (sumLWallSeq df).Pairwise (· ≤ ·) ∧
      (sumNormWseq df).getLastD 0 = 100 ∧
      (sumLWallSeq df).getLastD 0 = 100 := by
  intro df hne hw hlw htot
  have hsperm : (sortByWealthId df).Perm df := List.perm_insertionSort _ df
  have hsne : sortByWealthId df ≠ [] := by
    intro h
    apply hne
    have hp := hsperm
    rw [h] at hp
    exact hp.symm.eq_nil
  have hmapne : df.map (fun h : HH => h.weight) ≠ [] := by
    simpa using hne
  have hT : 0 < totalWeight df := by
    refine List.sum_pos _ ?_ hmapne
    intro x hx
    rcases List.mem_map.mp hx with ⟨h, hh, rfl⟩
    exact hw h hh
  have hmem_df : ∀ h ∈ sortByWealthId df, h ∈ df := fun h hh => hsperm.mem_iff.mp hh
  have hnn1 : ∀ x ∈ (sortByWealthId df).map (normw df), 0 ≤ x := by
    intro x hx
    rcases List.mem_map.mp hx with ⟨h, hh, rfl⟩
    exact div_nonneg (le_of_lt (hw h (hmem_df h hh))) (le_of_lt hT)
  have hnn2 : ∀ x ∈ (sortByWealthId df).map
      (fun h => weightedLW df h / totWeightedLW df), 0 ≤ x := by
    intro x hx
    rcases List.mem_map.mp hx with ⟨h, hh, rfl⟩
    have h1 : 0 ≤ weightedLW df h :=
      mul_nonneg (div_nonneg (le_of_lt (hw h (hmem_df h hh))) (le_of_lt hT))
        (hlw h (hmem_df h hh))
    exact div_nonneg h1 (le_of_lt htot)
  have hmono : ∀ a b : ℚ, a ≤ b → a * 100 ≤ b * 100 := by
    intro a b hab
    nlinarith
  have hsmapne1 : (sortByWealthId df).map (normw df) ≠ [] := by
    simpa using hsne
  have hsmapne2 : (sortByWealthId df).map
      (fun h => weightedLW df h / totWeightedLW df) ≠ [] := by
    simpa using hsne
  have hcne1 : cumsum ((sortByWealthId df).map (normw df)) ≠ [] := by
    intro h
    apply hsmapne1
    have hl := cumsum_length ((sortByWealthId df).map (normw df))
    rw [h] at hl
    exact List.eq_nil_of_length_eq_zero hl.symm
  have hcne2 : cumsum ((sortByWealthId df).map
      (fun h => weightedLW df h / totWeightedLW df)) ≠ [] := by
    intro h
    apply hsmapne2
    have hl := cumsum_length ((sortByWealthId df).map
      (fun h => weightedLW df h / totWeightedLW df))
    rw [h] at hl
    exact List.eq_nil_of_length_eq_zero hl.symm
  have hsum1 : ((sortByWealthId df).map (normw df)).sum = 1 := by
    have h1 : (sortByWealthId df).map (normw df) =
        ((sortByWealthId df).map (fun h : HH => h.weight)).map
          (fun x => x / totalWeight df) := by
      rw [List.map_map]
      rfl
    have h2 : ((sortByWealthId df).map (fun h : HH => h.weight)).sum =
        totalWeight df := (hsperm.map (fun h : HH => h.weight)).sum_eq
    rw [h1, sum_map_div, h2]
    exact div_self (ne_of_gt hT)
  have hsum2 : ((sortByWealthId df).map
      (fun h => weightedLW df h / totWeightedLW df)).sum = 1 := by
    have h1 : (sortByWealthId df).map (fun h => weightedLW df h / totWeightedLW df) =
        ((sortByWealthId df).map (weightedLW df)).map
          (fun x => x / totWeightedLW df) := by
      rw [List.map_map]
      rfl
    rw [h1, sum_map_div]
    exact div_self (ne_of_gt htot)
  refine ⟨?_, ?_, ?_, ?_⟩
  · exact (cumsumFrom_pairwise hnn1 0).map _ hmono
  · exact (cumsumFrom_pairwise hnn2 0).map _ hmono
  · rw [sumNormWseq, getLastD_map_of_ne_nil _ _ hcne1 0 0,
      cumsum_getLastD hsmapne1 0, hsum1]
    norm_num
  · rw [sumLWallSeq, getLastD_map_of_ne_nil _ _ hcne2 0 0,
      cumsum_getLastD hsmapne2 0, hsum2]
    norm_num

/-- C6, witness: the Lorenz sequences of the concrete four-household
panel end at 100. -/
theorem lorenz_sequences_monotone_end_at_100_witness :
    (sumNormWseq lorenzScenario4).getLastD 0 = 100 ∧
    (sumLWallSeq lorenzScenario4).getLastD 0 = 100 :=
  ⟨(lorenz_sequences_monotone_end_at_100 lorenzScenario4 (by decide) (by decide)
      (by decide) (by decide)).2.2.1,
   (lorenz_sequences_monotone_end_at_100 lorenzScenario4 (by decide) (by decide)
      (by decide) (by decide)).2.2.2⟩

/-- C7: under the five-implicate indexing convention, the collapse step
keeps exactly one row per distinct household identifier, and each retained
representative weight of each retained household — the mean of its per-implicate weights
multiplied by 5 — equals the sum of its five per-implicate weights. -/
theorem collapse_one_row_per_household :
    ∀ df : List RawRec, FiveImplicates df →
      ∀ h ∈ df.map (fun r => r.yy1),
        (householdRows df h).length = 5 ∧
        ((collapseImplicates df).filter (fun r => r.yy1 == h)).length = 1 ∧
        ∀ r ∈ collapseImplicates df, r.yy1 = h →
          representativeWeight df r =
            ((householdRows df h).map (fun x => x.wgt)).sum := by
  intro df hfive h hh
  have hperm := hfive h hh
  have hlen5 : (householdRows df h).length = 5 := by
    have := hperm.length_eq
    simpa using this
  refine ⟨hlen5, ?_, ?_⟩
  · have hcomm : (collapseImplicates df).filter (fun r => r.yy1 == h) =
        (householdRows df h).filter (fun r => r.y1 % 5 == 1) := by
      rw [collapseImplicates, householdRows, List.filter_filter, List.filter_filter]
      refine List.filter_congr ?_
      intro r _
      exact Bool.and_comm _ _
    rw [hcomm, ← List.countP_eq_length_filter]
    have hmapcount : ((householdRows df h).map (fun r => r.y1)).countP
        (fun n => n % 5 == 1) = (householdRows df h).countP (fun r => r.y1 % 5 == 1) := by
      rw [List.countP_map]
      rfl
    rw [← hmapcount, hperm.countP_eq]
    have h1 : (10 * h + 1) % 5 = 1 := by omega
    have h2 : (10 * h + 2) % 5 = 2 := by omega
    have h3 : (10 * h + 3) % 5 = 3 := by omega
    have h4 : (10 * h + 4) % 5 = 4 := by omega
    have h5 : (10 * h + 5) % 5 = 0 := by omega
    simp [List.countP_cons, h1, h2, h3, h4, h5]
  · intro r _ hryy
    show (((householdRows df r.yy1).map (fun x => x.wgt)).sum
        / ((householdRows df r.yy1).length : ℚ)) * 5 =
      ((householdRows df h).map (fun x => x.wgt)).sum
    rw [hryy, hlen5]
    rw [show (((5 : ℕ)) : ℚ) = 5 by norm_num]
    exact div_mul_cancel₀ _ (by norm_num)

/-- C7, witness: the collapse invariant on a concrete two-household frame
with five implicates per household. -/
theorem collapse_one_row_per_household_witness :
    ((collapseImplicates rawTwoHH).filter (fun r => r.yy1 == 7)).length = 1 :=
  (collapse_one_row_per_household rawTwoHH
    (by unfold FiveImplicates; decide) 7 (by decide)).2.1

/-- C8: the auxiliary-correction merge keeps every raw record, forces the
credit-card balance to 0 whenever the matched auxiliary flag equals 1
(regardless of the raw value), and leaves records without an auxiliary
match, or with a different flag value, entirely unchanged. -/
theorem merge_left_join_forces_ccbal :
    ∀ (aux : List AuxRec) (df : List RawRec),
      (mergeCcbal aux df).length = df.length ∧
      ∀ r : RawRec,
        (∀ a, lookupAux aux r.y1 = some a → a.x432 = 1 →
          applyCcbalAnswer aux r = { r with ccbal := 0 }) ∧
        (lookupAux aux r.y1 = none → applyCcbalAnswer aux r = r) ∧
        (∀ a, lookupAux aux r.y1 = some a → a.x432 ≠ 1 →
          applyCcbalAnswer aux r = r) := by
  intro aux df
  refine ⟨by simp [mergeCcbal], ?_⟩
  intro r
  refine ⟨?_, ?_, ?_⟩
  · intro a ha hx
    unfold applyCcbalAnswer
    rw [ha]
    simp [hx]
  · intro ha
    unfold applyCcbalAnswer
    rw [ha]
  · intro a ha hx
    unfold applyCcbalAnswer
    rw [ha]
    simp [hx]

/-- C8, witness: the record with raw credit-card balance 500 matched by an
auxiliary flag value of 1 comes out with balance 0. -/
theorem merge_left_join_forces_ccbal_witness :
    applyCcbalAnswer auxNoBalance rawCc500 = { rawCc500 with ccbal := 0 } :=
  ((merge_left_join_forces_ccbal auxNoBalance [rawCc500]).2 rawCc500).1
    { y1 := 11, x432 := 1 } (by decide) (by decide)

/-- Every entry of a column is bounded in absolute value by the column
maximum absolute value. -/
theorem le_maxAbs {vs : List ℚ} : ∀ v ∈ vs, |v| ≤ maxAbs vs := by
  induction vs with
  | nil => simp
  | cons x xs ih =>
    intro v hv
    rcases List.mem_cons.mp hv with h | h
    · subst h
      exact le_max_left _ _
    · exact le_trans (ih v h) (le_max_right _ _)

/-- A column of zeros has maximum absolute value 0. -/
theorem maxAbs_eq_zero_of_all_zero {vs : List ℚ} (h0 : ∀ v ∈ vs, v = 0) :
    maxAbs vs = 0 := by
  induction vs with
  | nil => rfl
  | cons x xs ih =>
    have hx : x = 0 := h0 x (List.mem_cons_self x xs)
    have hxs : ∀ v ∈ xs, v = 0 := fun v hv => h0 v (List.mem_cons_of_mem _ hv)
    show max |x| (maxAbs xs) = 0
    rw [hx, ih hxs]
    simp

/-- C9: vintage rescaling divides each listed monetary column with a
non-zero maximum absolute value by the constant factor 1.1587 and leaves
every other column — unlisted columns and listed columns that are entirely
zero — unchanged, preserving the number of columns. -/
theorem vintage_rescaling_frame :
    ∀ table : List Column,
      (adjust_inflation table).length = table.length ∧
      ∀ c ∈ table,
        (c.name ∈ DOLLAR_VARIABLES → (∃ v ∈ c.values, v ≠ 0) →
          adjustColumn c =
            { c with values := c.values.map (fun v => v / INFLATION_FACTOR) }) ∧
        (c.name ∉ DOLLAR_VARIABLES → adjustColumn c = c) ∧
        ((∀ v ∈ c.values, v = 0) → adjustColumn c = c) := by
  intro table
  refine ⟨by simp [adjust_inflation], ?_⟩
  intro c _
  refine ⟨?_, ?_, ?_⟩
  · rintro hname ⟨v, hv, hv0⟩
    have hpos : 0 < maxAbs c.values :=
      lt_of_lt_of_le (abs_pos.mpr hv0) (le_maxAbs v hv)
    unfold adjustColumn
    rw [if_pos ⟨hname, hpos⟩]
  · intro hname
    unfold adjustColumn
    rw [if_neg]
    rintro ⟨h1, _⟩
    exact hname h1
  · intro h0
    unfold adjustColumn
    rw [if_neg]
    rintro ⟨_, h2⟩
    rw [maxAbs_eq_zero_of_all_zero h0] at h2
    exact lt_irrefl 0 h2

/-- C9, witness: a listed non-zero column is divided, an unlisted column
and a listed all-zero column are unchanged. -/
theorem vintage_rescaling_frame_witness :
    adjustColumn colIncome =
      { colIncome with
        values := colIncome.values.map (fun v => v / INFLATION_FACTOR) } ∧
    adjustColumn colAge = colAge ∧
    adjustColumn colZero = colZero := by
  refine ⟨?_, ?_, ?_⟩
  · exact ((vintage_rescaling_frame [colIncome, colAge, colZero]).2 colIncome
      (by decide)).1 (by decide) ⟨100, by decide, by decide⟩
  · exact ((vintage_rescaling_frame [colIncome, colAge, colZero]).2 colAge
      (by decide)).2.1 (by decide)
  · exact ((vintage_rescaling_frame [colIncome, colAge, colZero]).2 colZero
      (by decide)).2.2 (by decide)

/-- Folding the running maximum of percent differences never decreases the
accumulator. -/
theorem le_foldl_maxDiff (ps : List (ℚ × ℚ)) :
    ∀ m : ℚ, m ≤ ps.foldl (fun m p => max m (pctDiff p.1 p.2)) m := by
  induction ps with
  | nil => intro m; simp
  | cons p ps ih =>
    intro m
    exact le_trans (le_max_left m (pctDiff p.1 p.2)) (ih _)

/-- C10: a statistic whose git-versioned reference value is 0 has its
percent difference reported as 0 without any division, and such a
statistic never changes the running maximum difference that decides the
comparison verdict. -/
theorem zero_reference_never_raises_max :
    (∀ l : ℚ, pctDiff 0 l = 0) ∧
    (∀ (ps qs : List (ℚ × ℚ)) (l : ℚ),
      maxDiff (ps ++ (0, l) :: qs) = maxDiff (ps ++ qs)) := by
  constructor
  · intro l
    simp [pctDiff]
  · intro ps qs l
    unfold maxDiff
    rw [List.foldl_append, List.foldl_append, List.foldl_cons]
    have h0 : (0 : ℚ) ≤ List.foldl (fun m p => max m (pctDiff p.1 p.2)) 0 ps :=
      le_foldl_maxDiff ps 0
    have hz : pctDiff (((0 : ℚ), l)).1 (((0 : ℚ), l)).2 = 0 := by simp [pctDiff]
    rw [hz, max_eq_left h0]

end Claims

end HAFiscal
